import Mathlib

/-!
Verification of `src/scripts/validateImages.ts`.

A shallow embedding of the image-validation script.  Buffers (Node `Buffer`)
are modelled as `List Byte` with `Byte := Fin 256`; file paths and strings as
`List Char`; JS `undefined`/exceptions as `Option`; `process.exit(1)` and
uncaught exceptions as explicit outcomes of a result type.  The directory tree
walked by the validator is modelled as an inductive `Tree`, and the filesystem
consulted by the metadata cross-checker as the list of existing file paths.

Definitions are translated from the source file; comments note the line of the
source each definition embeds.
-/

abbrev Byte := Fin 256

/-- One lowercase hex digit, as produced by Node `Buffer.prototype.toString("hex")`:
`0`–`9` are code points 48+n, `a`–`f` are 87+n. -/
def hexDigit (n : Nat) : Char :=
  if n < 10 then Char.ofNat (48 + n) else Char.ofNat (87 + n)

/-- Model of `buffer.toString("hex")`: each byte becomes two lowercase hex digits,
with no separators. -/
def bufToHex : List Byte → List Char
  | [] => []
  | b :: bs => hexDigit (b.val / 16) :: hexDigit (b.val % 16) :: bufToHex bs

/-- The big-endian 32-bit word starting at byte offset `off` (value read by
`buffer.readUInt32BE(off)` when the read is in range). -/
def beWord32 (b : List Byte) (off : Nat) : Nat :=
  (b.getD off 0).val * 16777216 + (b.getD (off + 1) 0).val * 65536 +
    (b.getD (off + 2) 0).val * 256 + (b.getD (off + 3) 0).val

/-- Model of `buffer.readUInt32BE(off)`: Node throws `ERR_OUT_OF_RANGE` unless
`0 ≤ off ≤ buffer.length - 4`; the exception is modelled as `none`.
The offset is an `Int` because the script can compute negative offsets
(e.g. `width - 1` with `width = 0`). -/
def readUInt32BE (b : List Byte) (off : Int) : Option Nat :=
  if 0 ≤ off ∧ off + 4 ≤ (b.length : Int) then some (beWord32 b off.toNat) else none

/-- Model of `buffer.readUInt16BE(off)` for the natural offsets used by the JPEG scan;
`none` models the `ERR_OUT_OF_RANGE` exception. -/
def readUInt16BE (b : List Byte) (off : Nat) : Option Nat :=
  if off + 2 ≤ b.length then
    some ((b.getD off 0).val * 256 + (b.getD (off + 1) 0).val)
  else none

/-- The `{width, height}` object returned by `getImageDimensions`. -/
structure Dimensions where
  width : Nat
  height : Nat
deriving DecidableEq, Repr

/-- Result of running `getImageDimensions` on a buffer: a normal return value
(`ok`, possibly `null = none`), or an exception escaping the function
(`fault`, an out-of-range buffer read). -/
inductive ReadResult where
  | ok : Option Dimensions → ReadResult
  | fault : ReadResult
deriving DecidableEq, Repr

/-- Hex string literal compared against the first 8 bytes (source line 25). -/
def pngHexChars : List Char := "89504e470d0a1a0a".data

/-- Hex string literal compared against the first 2 bytes (source line 34).
Note the space: the source writes `"ff d8"`. -/
def jpegCmpChars : List Char := "ff d8".data

/-- The PNG branch of `getImageDimensions` (source lines 28–30): read the two
big-endian words at offsets 16 and 20; a failed read is the exception. -/
def pngBranch (b : List Byte) : ReadResult :=
  match readUInt32BE b 16, readUInt32BE b 20 with
  | some w, some h => ReadResult.ok (some ⟨w, h⟩)
  | _, _ => ReadResult.fault

/-- The JPEG segment scan of `getImageDimensions` (source lines 36–51):
while `i < buffer.length`, read the 16-bit segment length at `i+2` (before the
marker test, as in the source); on a `FF C0`..`FF C3` marker return height and
width from `i+5` and `i+7`; otherwise advance by `segmentLength + 2`.  JS
out-of-range indexing (`buffer[i+1]` past the end) yields `undefined`, which
fails the `>= 0xc0` comparison; `List.getD _ 0` likewise fails it. -/
def jpegScan (b : List Byte) (i : Nat) : ReadResult :=
  if _h : i < b.length then
    match readUInt16BE b (i + 2) with
    | none => ReadResult.fault
    | some segLen =>
      if (b.getD i 0).val = 0xff ∧ 0xc0 ≤ (b.getD (i + 1) 0).val ∧
          (b.getD (i + 1) 0).val ≤ 0xc3 then
        match readUInt16BE b (i + 5), readUInt16BE b (i + 7) with
        | some hgt, some wdt => ReadResult.ok (some ⟨wdt, hgt⟩)
        | _, _ => ReadResult.fault
      else
        jpegScan b (i + (segLen + 2))
  else ReadResult.ok none
termination_by b.length - i
decreasing_by omega

/-- Model of `getImageDimensions` (source lines 19–56): PNG signature check via the hex
string of the first 8 bytes, then the (as-written) JPEG check comparing the hex
string of the first 2 bytes with the literal `"ff d8"`, else `null`. -/
def getImageDimensions (b : List Byte) : ReadResult :=
  if bufToHex (b.take 8) = pngHexChars then pngBranch b
  else if bufToHex (b.take 2) = jpegCmpChars then jpegScan b 2
  else ReadResult.ok none

/-- The 8 PNG signature bytes `89 50 4E 47 0D 0A 1A 0A`. -/
def pngSignature : List Byte := [0x89, 0x50, 0x4e, 0x47, 0x0d, 0x0a, 0x1a, 0x0a]

/-! Section: the asset validator (`validateAssetsImages`, source lines 61–163). -/

/-- Model of `path.extname(name)` for a basename: the substring from the last `.` to the
end, or `""` when there is no dot or the only dot is the leading one (dotfiles
such as `.DS_Store`). -/
def extname (name : List Char) : List Char :=
  match (name.reverse).findIdx? (fun c => c == '.') with
  | some k => if k + 1 < name.length then ((name.reverse).take (k + 1)).reverse else []
  | none => []

/-- Model of `String.prototype.toLowerCase()` on the ASCII range (the only range the
script compares against). -/
def lowerChars (s : List Char) : List Char := s.map Char.toLower

/-- Model of `String.prototype.includes(pat)`: some suffix of `s` has `pat` as a prefix. -/
def containsSub (pat : List Char) : List Char → Bool
  | [] => pat.isPrefixOf []
  | c :: rest => pat.isPrefixOf (c :: rest) || containsSub pat rest

/-- Model of `String.prototype.replace(pat, "")` with a string pattern: remove the first
occurrence of `pat`, or return the string unchanged if absent. -/
def replaceFirst (pat : List Char) : List Char → List Char
  | [] => []
  | c :: rest =>
    if pat.isPrefixOf (c :: rest) then (c :: rest).drop pat.length
    else c :: replaceFirst pat rest

/-- A character matched by `[0-9a-f]` under the `/i` flag. -/
def isHexDigitCI (c : Char) : Bool :=
  ('0' ≤ c && c ≤ '9') || ('a' ≤ c && c ≤ 'f') || ('A' ≤ c && c ≤ 'F')

/-- Model of the test of a regex `0x` followed by `n` hex digits: `0` then `x`/`X` then exactly `n`
case-insensitive hex digits, matching the whole string. -/
def addrTest (n : Nat) (s : List Char) : Bool :=
  match s with
  | c0 :: c1 :: rest =>
    (c0 == '0') && (c1 == 'x' || c1 == 'X') && (rest.length == n) && rest.all isHexDigitCI
  | _ => false

/-- The token regex `/^0x[0-9a-f]{40}$/i` (source line 85). -/
def tokenRegexTest (s : List Char) : Bool := addrTest 40 s

/-- The validator regex `/^0x[0-9a-f]{96}$/i` (source line 96). -/
def validatorRegexTest (s : List Char) : Bool := addrTest 96 s

/-- Join of the accumulated relative components with `/`. -/
def joinPath : List (List Char) → List Char
  | [] => []
  | [p] => p
  | p :: ps => p ++ '/' :: joinPath ps

def tokensStr : List Char := "tokens".data

def validatorsStr : List Char := "validators".data

def tokensSlashStr : List Char := "tokens/".data

def validatorsSlashStr : List Char := "validators/".data

def pngExtStr : List Char := ".png".data

def jpgExtStr : List Char := ".jpg".data

def jpegExtStr : List Char := ".jpeg".data

/-- Names skipped silently by the walker (source line 74). -/
def allowNames : List (List Char) := [".DS_Store".data, "validator-default.png".data]

def tokenMsgStr : List Char := ": Invalid file name! Must be a valid token address.".data

def validatorMsgStr : List Char :=
  ": Invalid file name! Must be a valid validator pubkey address.".data

def dimPrefixStr : List Char := ": Invalid (Dimensions: ".data

def dimSuffixStr : List Char := ")! Must be 1024x1024 pixels.".data

def transMsgStr : List Char := ": Invalid image! Image cannot be transparent!".data

/-- Decimal rendering of a JS number holding a natural. -/
def natChars (n : Nat) : List Char := (Nat.repr n).data

/-- Interpolation `${dimensions?.width}x${dimensions?.height}`: `undefined` interpolates as
the string `undefined`. -/
def dimsStr : Option Dimensions → List Char
  | none => "undefinedxundefined".data
  | some d => natChars d.width ++ ('x' :: natChars d.height)

/-- Error pushed at source line 91. -/
def tokenNameMsg (rel : List Char) : List Char := rel ++ tokenMsgStr

/-- Error pushed at source line 102. -/
def validatorNameMsg (rel : List Char) : List Char := rel ++ validatorMsgStr

/-- Error pushed at source line 115. -/
def dimensionMsg (rel : List Char) (dims : Option Dimensions) : List Char :=
  rel ++ (dimPrefixStr ++ (dimsStr dims ++ dimSuffixStr))

/-- Error pushed at source line 141. -/
def transparencyMsg (rel : List Char) : List Char := rel ++ transMsgStr

/-- File-name validation (source lines 84–106): dispatch on whether the
relative path contains `"tokens"`, else `"validators"`; strip the first
occurrence of the extension and of the `tokens/` (resp. `validators/`)
substring, then test the regex. -/
def namingErrors (rel ext : List Char) : List (List Char) :=
  if containsSub tokensStr rel then
    if tokenRegexTest (replaceFirst tokensSlashStr (replaceFirst ext rel)) then []
    else [tokenNameMsg rel]
  else if containsSub validatorsStr rel then
    if validatorRegexTest (replaceFirst validatorsSlashStr (replaceFirst ext rel)) then []
    else [validatorNameMsg rel]
  else []

/-- Dimension validation (source lines 109–118): error when the reader returned
`null`, or width < 1024, or height < 1024, or width ≠ height. -/
def dimensionErrors (rel : List Char) (dims : Option Dimensions) : List (List Char) :=
  match dims with
  | none => [dimensionMsg rel none]
  | some d =>
    if d.width < 1024 ∨ d.height < 1024 ∨ d.width ≠ d.height then
      [dimensionMsg rel (some d)]
    else []

/-- Transparency validation (source lines 121–145), run only for `.png` files
with successfully read dimensions: four 32-bit big-endian reads from the raw
buffer at offsets `0`, `width - 1`, `(width * (height - 1)) % buffer.length`
(JS remainder, sign of the dividend, hence `Int.tmod`) and
`Math.min(width * height - 1, buffer.length - 4)`; `none` models an
out-of-range read throwing.  An error is pushed when any word is zero. -/
def transparencyCheck (rel ext : List Char) (dims : Option Dimensions)
    (buffer : List Byte) : Option (List (List Char)) :=
  if ext = pngExtStr then
    match dims with
    | none => some []
    | some d =>
      match readUInt32BE buffer 0,
            readUInt32BE buffer ((d.width : Int) - 1),
            readUInt32BE buffer
              (Int.tmod ((d.width : Int) * ((d.height : Int) - 1)) (buffer.length : Int)),
            readUInt32BE buffer
              (min ((d.width : Int) * (d.height : Int) - 1) ((buffer.length : Int) - 4)) with
      | some tl, some tr, some bl, some br =>
        some (if tl = 0 ∨ tr = 0 ∨ bl = 0 ∨ br = 0 then [transparencyMsg rel] else [])
      | _, _, _, _ => none
  else some []

/-- The checks applied to one image file (source lines 80–145), in source
order: read dimensions (a throwing read aborts, `none`), then naming errors,
dimension errors and transparency errors accumulate. -/
def checkImageFile (rel ext : List Char) (buffer : List Byte) :
    Option (List (List Char)) :=
  match getImageDimensions buffer with
  | ReadResult.fault => none
  | ReadResult.ok dims =>
    match transparencyCheck rel ext dims buffer with
    | none => none
    | some transErrs =>
      some (namingErrors rel ext ++ (dimensionErrors rel dims ++ transErrs))

/-- Outcome of the traversal: normal completion with the accumulated error
list, `process.exit(1)` fired mid-traversal (unsupported file type), or an
uncaught exception (out-of-range buffer read). -/
inductive ProcResult where
  | ok : List (List Char) → ProcResult
  | exit1 : ProcResult
  | fault : ProcResult
deriving DecidableEq, Repr

/-- Sequencing of two traversal steps sharing the error array: the first
`exit1`/`fault` wins, otherwise errors concatenate. -/
def seqRes : ProcResult → ProcResult → ProcResult
  | ProcResult.ok e1, ProcResult.ok e2 => ProcResult.ok (e1 ++ e2)
  | ProcResult.ok _, r => r
  | r, _ => r

/-- Processing of one non-directory entry (source lines 74–149): allow-listed
names are skipped; image extensions run the checks; anything else is
`process.exit(1)`. -/
def processFile (comps : List (List Char)) (name : List Char) (content : List Byte) :
    ProcResult :=
  if name ∈ allowNames then ProcResult.ok []
  else
    let ext := lowerChars (extname name)
    if ext = pngExtStr ∨ ext = jpgExtStr ∨ ext = jpegExtStr then
      match checkImageFile (joinPath (comps ++ [name])) ext content with
      | some errs => ProcResult.ok errs
      | none => ProcResult.fault
    else ProcResult.exit1

/-- A directory tree: the entries returned by `readdirSync` in order. -/
inductive FsTree where
  | file : List Char → List Byte → FsTree
  | dir : List Char → List FsTree → FsTree

/-- Model of `processDirectory` (source lines 65–152): fold over the entries, recursing
into subdirectories with the extended relative path; `comps` holds the
directory components below the assets root. -/
def processTrees (comps : List (List Char)) : List FsTree → ProcResult
  | [] => ProcResult.ok []
  | FsTree.file name content :: ts =>
    seqRes (processFile comps name content) (processTrees comps ts)
  | FsTree.dir name entries :: ts =>
    seqRes (processTrees (comps ++ [name]) entries) (processTrees comps ts)

/-- Model of `validateAssetsImages` (source lines 61–163): walk the tree; on normal
completion, a non-empty error list forces `process.exit(1)`. -/
def validateAssetsImages (root : List FsTree) : ProcResult :=
  match processTrees [] root with
  | ProcResult.ok errs => if 0 < errs.length then ProcResult.exit1 else ProcResult.ok errs
  | r => r

/-! Section: the metadata cross-checker (`validateMetadataImages`, source lines 168–287). -/

/-- A parsed metadata array element: the script reads at most one of the fields
`address`, `id`, `stakingTokenAddress` from each JSON object, depending on the
category. -/
structure JObj where
  address : List Char
  id : List Char
  stakingTokenAddress : List Char
deriving DecidableEq, Repr

/-- The loaded `jsonMetadata` map: category (folder) name, then per JSON file
(file name, array of elements), in load order. -/
abbrev Metadata := List (List Char × List (List Char × List JObj))

/-- Path prefix `__dirname/../src/assets/tokens/` (source line 226), written
relative to the repository root. -/
def tokensBaseStr : List Char := "src/assets/tokens/".data

/-- Path prefix `__dirname/../src/assets/validators/` (source line 246). -/
def validatorsBaseStr : List Char := "src/assets/validators/".data

def tokenMissStr : List Char := ":\nToken file not found in assets/tokens folder!".data

def validatorMissStr : List Char :=
  ":\nValidator file not found in assets/validators folder!".data

def vaultMissStr : List Char := ":\nVault file not found in assets/tokens folder!".data

/-- Error pushed at source line 233. -/
def tokenMissMsg (addr : List Char) : List Char := addr ++ tokenMissStr

/-- Error pushed at source line 253. -/
def validatorMissMsg (ident : List Char) : List Char := ident ++ validatorMissStr

/-- Error pushed at source line 273. -/
def vaultMissMsg (addr : List Char) : List Char := addr ++ vaultMissStr

/-- The three `fs.existsSync` probes for `<base>.png/.jpg/.jpeg`, against the
set of files present on disk. -/
def assetExists (fsFiles : List (List Char)) (base : List Char) : Bool :=
  fsFiles.contains (base ++ pngExtStr) || fsFiles.contains (base ++ jpgExtStr) ||
    fsFiles.contains (base ++ jpegExtStr)

/-- One category of the cross-check (source lines 218–280), in push-accumulator
style mirroring the nested `forEach` with `errors.push`: `tokens` elements use
`address` against `assets/tokens`, `validators` elements use `id` against
`assets/validators`, `vaults` elements use `stakingTokenAddress` against
`assets/tokens`; any other key leaves the error array untouched. -/
def checkCategory (fsFiles : List (List Char)) (key : List Char)
    (files : List (List Char × List JObj)) (errors : List (List Char)) :
    List (List Char) :=
  if key = tokensStr then
    files.foldl (fun acc f =>
      f.2.foldl (fun es t =>
        if assetExists fsFiles (tokensBaseStr ++ t.address) then es
        else es ++ [tokenMissMsg t.address]) acc) errors
  else if key = validatorsStr then
    files.foldl (fun acc f =>
      f.2.foldl (fun es v =>
        if assetExists fsFiles (validatorsBaseStr ++ v.id) then es
        else es ++ [validatorMissMsg v.id]) acc) errors
  else if key = "vaults".data then
    files.foldl (fun acc f =>
      f.2.foldl (fun es v =>
        if assetExists fsFiles (tokensBaseStr ++ v.stakingTokenAddress) then es
        else es ++ [vaultMissMsg v.stakingTokenAddress]) acc) errors
  else errors

/-- Model of `validateMetadataImages` (source lines 168–287): fold the loaded metadata
through the per-category check, starting from an empty error array.  The
function only warns: it never exits the process. -/
def validateMetadataImages (fsFiles : List (List Char)) (md : Metadata) :
    List (List Char) :=
  md.foldl (fun errors kv => checkCategory fsFiles kv.1 kv.2 errors) []

/-- Concatenation of the images of `f`, used by the spec-side restatement. -/
def concatMap (f : α → List β) : List α → List β
  | [] => []
  | a :: l => f a ++ concatMap f l

/-- Errors one metadata element contributes according to the specification
wording of claim C8: the identifier field is selected by the category name,
a missing file yields exactly one error naming the identifier, and every
other category is silently ignored. -/
def elemErrorsSpec (fsFiles : List (List Char)) (key : List Char) (e : JObj) :
    List (List Char) :=
  if key = tokensStr then
    if assetExists fsFiles (tokensBaseStr ++ e.address) then [] else [tokenMissMsg e.address]
  else if key = validatorsStr then
    if assetExists fsFiles (validatorsBaseStr ++ e.id) then [] else [validatorMissMsg e.id]
  else if key = "vaults".data then
    if assetExists fsFiles (tokensBaseStr ++ e.stakingTokenAddress) then []
    else [vaultMissMsg e.stakingTokenAddress]
  else []

/-- Spec-side restatement of the cross-checker (for claim C8): every element of
every file of every category contributes its `elemErrorsSpec` errors, in order. -/
def crossCheckSpec (fsFiles : List (List Char)) (md : Metadata) : List (List Char) :=
  concatMap (fun kv => concatMap (fun f => concatMap (elemErrorsSpec fsFiles kv.1) f.2) kv.2) md

/-- The whole script (source lines 291–292): `validateAssetsImages()` then
`validateMetadataImages()`.  The result is `none` for an uncaught exception,
otherwise `some (exitCode, metadataWarnings)`; `process.exit(1)` inside the
asset pass prevents the metadata pass from running. -/
def runScript (root : List FsTree) (fsFiles : List (List Char)) (md : Metadata) :
    Option (Nat × List (List Char)) :=
  match validateAssetsImages root with
  | ProcResult.fault => none
  | ProcResult.exit1 => some (1, [])
  | ProcResult.ok _ => some (0, validateMetadataImages fsFiles md)

/-! Section: helper lemmas. -/

theorem hexDigit_inj_lt (m n : Nat) (hm : m < 16) (hn : n < 16)
    (h : hexDigit m = hexDigit n) : m = n := by
  have key : ∀ a b : Fin 16, hexDigit a.val = hexDigit b.val → a = b := by decide
  have := key ⟨m, hm⟩ ⟨n, hn⟩ h
  exact congrArg Fin.val this

theorem bufToHex_inj : ∀ l1 l2 : List Byte, bufToHex l1 = bufToHex l2 → l1 = l2 := by
  intro l1
  induction l1 with
  | nil =>
    intro l2 h
    cases l2 with
    | nil => rfl
    | cons c cs => simp [bufToHex] at h
  | cons a as ih =>
    intro l2 h
    cases l2 with
    | nil => simp [bufToHex] at h
    | cons c cs =>
      simp only [bufToHex, List.cons.injEq] at h
      obtain ⟨h1, h2, h3⟩ := h
      have ha : a.val / 16 < 16 :=
        (Nat.div_lt_iff_lt_mul (by norm_num)).mpr (by have := a.isLt; omega)
      have hc : c.val / 16 < 16 :=
        (Nat.div_lt_iff_lt_mul (by norm_num)).mpr (by have := c.isLt; omega)
      have e1 := hexDigit_inj_lt _ _ ha hc h1
      have e2 := hexDigit_inj_lt _ _ (Nat.mod_lt _ (by norm_num))
        (Nat.mod_lt _ (by norm_num)) h2
      have : a = c := Fin.ext (by omega)
      rw [this, ih cs h3]

theorem bufToHex_length (l : List Byte) : (bufToHex l).length = 2 * l.length := by
  induction l with
  | nil => rfl
  | cons a as ih => simp [bufToHex, ih]; omega

/-- The JPEG branch condition of the source (line 34) is never true: the hex
string of two bytes has four characters while the literal `"ff d8"` has five. -/
theorem jpegCheck_never (b : List Byte) : bufToHex (b.take 2) ≠ jpegCmpChars := by
  intro h
  have h1 := congrArg List.length h
  rw [bufToHex_length] at h1
  have h2 : (b.take 2).length ≤ 2 := by
    simp [List.length_take]
  have h3 : jpegCmpChars.length = 5 := by decide
  omega

theorem png_check_iff (b : List Byte) :
    bufToHex (b.take 8) = pngHexChars ↔ b.take 8 = pngSignature := by
  constructor
  · intro h
    exact bufToHex_inj _ _ (h.trans (by decide))
  · intro h
    rw [h]
    decide

theorem ne_of_take11_ne {s t : List Char} (h : s.take 11 ≠ t.take 11) : s ≠ t :=
  fun he => h (he ▸ rfl)

theorem append_ne_of_ne (rel : List Char) {s t : List Char} (h : s ≠ t) :
    rel ++ s ≠ rel ++ t :=
  fun he => h (List.append_cancel_left he)

theorem dimSuffix_take11 (dims : Option Dimensions) :
    (dimPrefixStr ++ (dimsStr dims ++ dimSuffixStr)).take 11 = dimPrefixStr.take 11 :=
  List.take_append_of_le_length (by decide)

theorem dimensionMsg_ne_tokenNameMsg (rel : List Char) (dims : Option Dimensions) :
    dimensionMsg rel dims ≠ tokenNameMsg rel := by
  apply append_ne_of_ne
  apply ne_of_take11_ne
  rw [dimSuffix_take11]
  decide

theorem dimensionMsg_ne_validatorNameMsg (rel : List Char) (dims : Option Dimensions) :
    dimensionMsg rel dims ≠ validatorNameMsg rel := by
  apply append_ne_of_ne
  apply ne_of_take11_ne
  rw [dimSuffix_take11]
  decide

theorem dimensionMsg_ne_transparencyMsg (rel : List Char) (dims : Option Dimensions) :
    dimensionMsg rel dims ≠ transparencyMsg rel := by
  apply append_ne_of_ne
  apply ne_of_take11_ne
  rw [dimSuffix_take11]
  decide

theorem tokenNameMsg_ne_validatorNameMsg (rel : List Char) :
    tokenNameMsg rel ≠ validatorNameMsg rel :=
  append_ne_of_ne rel (by decide)

theorem tokenNameMsg_ne_transparencyMsg (rel : List Char) :
    tokenNameMsg rel ≠ transparencyMsg rel :=
  append_ne_of_ne rel (by decide)

theorem validatorNameMsg_ne_transparencyMsg (rel : List Char) :
    validatorNameMsg rel ≠ transparencyMsg rel :=
  append_ne_of_ne rel (by decide)

/-- Everything `namingErrors` can contain. -/
theorem mem_namingErrors (rel ext x : List Char) (h : x ∈ namingErrors rel ext) :
    x = tokenNameMsg rel ∨ x = validatorNameMsg rel := by
  unfold namingErrors at h
  split at h
  · split at h
    · simp at h
    · simp at h; exact Or.inl h
  · split at h
    · split at h
      · simp at h
      · simp at h; exact Or.inr h
    · simp at h

/-- Everything `dimensionErrors` can contain. -/
theorem mem_dimensionErrors (rel x : List Char) (dims : Option Dimensions)
    (h : x ∈ dimensionErrors rel dims) : x = dimensionMsg rel dims := by
  unfold dimensionErrors at h
  match dims with
  | none => simpa using h
  | some d =>
    simp only at h
    split at h
    · simpa using h
    · simp at h

/-- Everything a successful `transparencyCheck` can contain. -/
theorem transparencyCheck_shape (rel ext : List Char) (dims : Option Dimensions)
    (buffer : List Byte) (l : List (List Char))
    (h : transparencyCheck rel ext dims buffer = some l) :
    l = [] ∨ l = [transparencyMsg rel] := by
  unfold transparencyCheck at h
  split at h
  · match dims with
    | none => simp at h; exact Or.inl h
    | some d =>
      simp only at h
      split at h
      · split at h <;> simp_all
      · simp at h
  · simp at h; exact Or.inl h

/-! Section: claims about the dimension reader. -/

/-- Claim C1: for every buffer whose first 8 bytes are the PNG signature
`89 50 4E 47 0D 0A 1A 0A` followed by a (long-enough) IHDR layout,
`getImageDimensions` returns the big-endian 32-bit word at offset 16 as the
width and the word at offset 20 as the height, for all encodable values. -/
theorem png_header_dimensions (b : List Byte) (hsig : b.take 8 = pngSignature)
    (hlen : 24 ≤ b.length) :
    getImageDimensions b = ReadResult.ok (some ⟨beWord32 b 16, beWord32 b 20⟩) := by
  have hc : bufToHex (b.take 8) = pngHexChars := (png_check_iff b).mpr hsig
  have h16 : readUInt32BE b 16 = some (beWord32 b 16) := by
    unfold readUInt32BE
    rw [if_pos (by omega)]
    rfl
  have h20 : readUInt32BE b 20 = some (beWord32 b 20) := by
    unfold readUInt32BE
    rw [if_pos (by omega)]
    rfl
  unfold getImageDimensions pngBranch
  rw [hc, if_pos rfl, h16, h20]

/-- PNG signature, IHDR chunk header, width 1024, height 1024. -/
def pngBuf1024 : List Byte :=
  pngSignature ++ [0, 0, 0, 13, 73, 72, 68, 82, 0, 0, 4, 0, 0, 0, 4, 0]

/-- Witness for C1 at a concrete 24-byte buffer encoding 1024×1024. -/
theorem png_header_dimensions_witness :
    getImageDimensions pngBuf1024 =
      ReadResult.ok (some ⟨beWord32 pngBuf1024 16, beWord32 pngBuf1024 20⟩) :=
  png_header_dimensions pngBuf1024 (by decide) (by decide)

/-- A minimal JPEG: `FF D8` (SOI) immediately followed by an SOF0 segment
`FF C0` with declared length `00 11`, precision 8, height 5, width 4. -/
def jpegSofBuf : List Byte := [0xff, 0xd8, 0xff, 0xc0, 0x00, 0x11, 0x08, 0x00, 0x05, 0x00, 0x04]

/-- Claim C2: the claim asserts this buffer yields width 4 and height 5, and
the segment scan (`jpegScan`, source lines 36–51) indeed extracts them — but
`getImageDimensions` returns `null`, because the guard at source line 34
compares `buffer.slice(0, 2).toString("hex")`, which is the 4-character string
`ffd8`, with the 5-character literal `"ff d8"`; the comparison is always false
and the JPEG branch is unreachable. -/
theorem jpeg_sof_dead_branch :
    getImageDimensions jpegSofBuf = ReadResult.ok none ∧
    jpegScan jpegSofBuf 2 = ReadResult.ok (some ⟨4, 5⟩) := by
  constructor
  · decide
  · rw [jpegScan]
    decide

/-- Claim C3, counterexample: the claim says `getImageDimensions` never raises,
but on the buffer holding exactly the 8 signature bytes the read
`buffer.readUInt32BE(16)` at source line 28 throws `ERR_OUT_OF_RANGE`. -/
theorem getImageDimensions_fault_on_bare_signature :
    getImageDimensions pngSignature = ReadResult.fault := by decide

/-- Claim C3 (amended): for every buffer matching neither signature the reader
returns `null` without raising, and the reader raises an exception exactly when
the buffer starts with the PNG signature but is shorter than the 24 bytes the
two header reads require. -/
theorem getImageDimensions_fault_characterization (b : List Byte) :
    (b.take 8 ≠ pngSignature → getImageDimensions b = ReadResult.ok none) ∧
    (getImageDimensions b = ReadResult.fault ↔
      b.take 8 = pngSignature ∧ b.length < 24) := by
  by_cases hp : b.take 8 = pngSignature
  · have hc : bufToHex (b.take 8) = pngHexChars := (png_check_iff b).mpr hp
    refine ⟨fun h => absurd hp h, ?_⟩
    unfold getImageDimensions pngBranch
    rw [hc, if_pos rfl]
    by_cases hl : 24 ≤ b.length
    · have h16 : readUInt32BE b 16 = some (beWord32 b 16) := by
        unfold readUInt32BE
        rw [if_pos (by omega)]
        rfl
      have h20 : readUInt32BE b 20 = some (beWord32 b 20) := by
        unfold readUInt32BE
        rw [if_pos (by omega)]
        rfl
      rw [h16, h20]
      simp [hp]
      omega
    · have h20 : readUInt32BE b 20 = none := by
        unfold readUInt32BE
        rw [if_neg (by omega)]
      by_cases h16r : 20 ≤ b.length
      · have h16 : readUInt32BE b 16 = some (beWord32 b 16) := by
          unfold readUInt32BE
          rw [if_pos (by omega)]
          rfl
        rw [h16, h20]
        simp [hp]
        omega
      · have h16 : readUInt32BE b 16 = none := by
          unfold readUInt32BE
          rw [if_neg (by omega)]
        rw [h16, h20]
        simp [hp]
        omega
  · have hc : bufToHex (b.take 8) ≠ pngHexChars := fun h => hp ((png_check_iff b).mp h)
    have hres : getImageDimensions b = ReadResult.ok none := by
      unfold getImageDimensions
      rw [if_neg hc, if_neg (jpegCheck_never b)]
    exact ⟨fun _ => hres, by rw [hres]; simp [hp]⟩

/-- Witness for the amended C3 at the concrete one-byte buffer `[0]`. -/
theorem getImageDimensions_fault_characterization_witness :
    getImageDimensions [(0 : Byte)] = ReadResult.ok none :=
  (getImageDimensions_fault_characterization [(0 : Byte)]).1 (by decide)

/-! Section: claims about the per-file asset checks. -/

/-- Decomposition of a non-throwing run of the per-file checks. -/
theorem checkImageFile_eq_some (rel ext : List Char) (buffer : List Byte)
    (errs : List (List Char)) (h : checkImageFile rel ext buffer = some errs) :
    ∃ dims transErrs, getImageDimensions buffer = ReadResult.ok dims ∧
      transparencyCheck rel ext dims buffer = some transErrs ∧
      errs = namingErrors rel ext ++ (dimensionErrors rel dims ++ transErrs) := by
  unfold checkImageFile at h
  split at h
  · simp at h
  · rename_i dims hd
    split at h
    · simp at h
    · rename_i t htc
      exact ⟨dims, t, hd, htc, (Option.some.inj h).symm⟩

/-- When the token naming error is present in `namingErrors`. -/
theorem tokenMsg_mem_namingErrors (rel ext : List Char) :
    tokenNameMsg rel ∈ namingErrors rel ext ↔
      (containsSub tokensStr rel = true ∧
        tokenRegexTest (replaceFirst tokensSlashStr (replaceFirst ext rel)) = false) := by
  have hne : tokenNameMsg rel ≠ validatorNameMsg rel := tokenNameMsg_ne_validatorNameMsg rel
  unfold namingErrors
  cases hc : containsSub tokensStr rel
  · cases hv : containsSub validatorsStr rel
    · simp [hc, hv]
    · cases ht : validatorRegexTest (replaceFirst validatorsSlashStr (replaceFirst ext rel))
      · simp [hc, hv, ht, hne]
      · simp [hc, hv, ht]
  · cases ht : tokenRegexTest (replaceFirst tokensSlashStr (replaceFirst ext rel))
    · simp [hc, ht]
    · simp [hc, ht]

/-- When the validator naming error is present in `namingErrors`. -/
theorem validatorMsg_mem_namingErrors (rel ext : List Char) :
    validatorNameMsg rel ∈ namingErrors rel ext ↔
      (containsSub tokensStr rel = false ∧ containsSub validatorsStr rel = true ∧
        validatorRegexTest (replaceFirst validatorsSlashStr (replaceFirst ext rel)) = false) := by
  have hne : validatorNameMsg rel ≠ tokenNameMsg rel :=
    fun h => tokenNameMsg_ne_validatorNameMsg rel h.symm
  unfold namingErrors
  cases hc : containsSub tokensStr rel
  · cases hv : containsSub validatorsStr rel
    · simp [hc, hv]
    · cases ht : validatorRegexTest (replaceFirst validatorsSlashStr (replaceFirst ext rel))
      · simp [hc, hv, ht]
      · simp [hc, hv, ht]
  · cases ht : tokenRegexTest (replaceFirst tokensSlashStr (replaceFirst ext rel))
    · simp [hc, ht, hne]
    · simp [hc, ht]

/-- Claim C4: for every image file whose dimension read returns normally, the
dimension error is emitted if and only if the reader returned `null`, or
width < 1024, or height < 1024, or width ≠ height. -/
theorem dimension_error_iff (rel ext : List Char) (buffer : List Byte)
    (dims : Option Dimensions) (errs : List (List Char))
    (hdims : getImageDimensions buffer = ReadResult.ok dims)
    (hrun : checkImageFile rel ext buffer = some errs) :
    (dimensionMsg rel dims ∈ errs ↔
      (dims = none ∨ ∃ d, dims = some d ∧
        (d.width < 1024 ∨ d.height < 1024 ∨ d.width ≠ d.height))) := by
  obtain ⟨dims', transErrs, hd, htc, herrs⟩ :=
    checkImageFile_eq_some rel ext buffer errs hrun
  obtain rfl : dims = dims' := ReadResult.ok.inj (hdims.symm.trans hd)
  subst herrs
  constructor
  · intro hmem
    rcases List.mem_append.mp hmem with hna | hrest
    · rcases mem_namingErrors rel ext _ hna with h | h
      · exact absurd h (dimensionMsg_ne_tokenNameMsg rel dims)
      · exact absurd h (dimensionMsg_ne_validatorNameMsg rel dims)
    · rcases List.mem_append.mp hrest with hdim | htr
      · cases dims with
        | none => exact Or.inl rfl
        | some d =>
          simp only [dimensionErrors] at hdim
          split at hdim
          · rename_i hcond
            exact Or.inr ⟨d, rfl, hcond⟩
          · simp at hdim
      · rcases transparencyCheck_shape rel ext dims buffer transErrs htc with rfl | rfl
        · simp at htr
        · simp only [List.mem_singleton] at htr
          exact absurd htr (dimensionMsg_ne_transparencyMsg rel dims)
  · intro hcond
    refine List.mem_append.mpr (Or.inr (List.mem_append.mpr (Or.inl ?_)))
    rcases hcond with rfl | ⟨d, rfl, hc⟩
    · simp [dimensionErrors]
    · simp only [dimensionErrors]
      rw [if_pos hc]
      simp

/-- PNG signature, IHDR chunk header, width 1023, height 1024. -/
def pngBuf1023 : List Byte :=
  pngSignature ++ [0, 0, 0, 13, 73, 72, 68, 82, 0, 0, 3, 255, 0, 0, 4, 0]

/-- Relative path of a validly named token image used by witnesses. -/
def tokenRelPath : List Char :=
  "tokens/0xaaaaaaaaaaaaaaaaaaaaaaaaaaaaaaaaaaaaaaaa.jpg".data

/-- Witness for C4: a 1023×1024 file fails the dimension gate. -/
theorem dimension_error_iff_witness :
    dimensionMsg tokenRelPath (some ⟨1023, 1024⟩) ∈
        [dimensionMsg tokenRelPath (some ⟨1023, 1024⟩)] ↔
      ((some ⟨1023, 1024⟩ : Option Dimensions) = none ∨
        ∃ d, (some ⟨1023, 1024⟩ : Option Dimensions) = some d ∧
          (d.width < 1024 ∨ d.height < 1024 ∨ d.width ≠ d.height)) :=
  dimension_error_iff tokenRelPath jpgExtStr pngBuf1023 (some ⟨1023, 1024⟩)
    [dimensionMsg tokenRelPath (some ⟨1023, 1024⟩)] (by decide) (by decide)

/-- Claim C5: for every image file whose checks complete, the naming errors are
governed by the relative path: if it contains `"tokens"`, the token naming
error is emitted iff the stripped name fails the 40-hex-digit test; otherwise,
if it contains `"validators"`, the validator naming error is emitted iff the
stripped name fails the 96-hex-digit test; otherwise no naming error exists. -/
theorem naming_error_iff (rel ext : List Char) (buffer : List Byte)
    (errs : List (List Char)) (hrun : checkImageFile rel ext buffer = some errs) :
    (containsSub tokensStr rel = true →
      (tokenNameMsg rel ∈ errs ↔
        tokenRegexTest (replaceFirst tokensSlashStr (replaceFirst ext rel)) = false)) ∧
    (containsSub tokensStr rel = false → containsSub validatorsStr rel = true →
      (validatorNameMsg rel ∈ errs ↔
        validatorRegexTest (replaceFirst validatorsSlashStr (replaceFirst ext rel)) = false)) ∧
    (containsSub tokensStr rel = false → containsSub validatorsStr rel = false →
      tokenNameMsg rel ∉ errs ∧ validatorNameMsg rel ∉ errs) := by
  obtain ⟨dims, transErrs, hd, htc, herrs⟩ :=
    checkImageFile_eq_some rel ext buffer errs hrun
  subst herrs
  have hTokDim : tokenNameMsg rel ∉ dimensionErrors rel dims := fun hmem =>
    (dimensionMsg_ne_tokenNameMsg rel dims) (mem_dimensionErrors rel _ dims hmem).symm
  have hValDim : validatorNameMsg rel ∉ dimensionErrors rel dims := fun hmem =>
    (dimensionMsg_ne_validatorNameMsg rel dims) (mem_dimensionErrors rel _ dims hmem).symm
  have hTokTr : tokenNameMsg rel ∉ transErrs := by
    rcases transparencyCheck_shape rel ext dims buffer transErrs htc with rfl | rfl
    · simp
    · simp only [List.mem_singleton]
      exact tokenNameMsg_ne_transparencyMsg rel
  have hValTr : validatorNameMsg rel ∉ transErrs := by
    rcases transparencyCheck_shape rel ext dims buffer transErrs htc with rfl | rfl
    · simp
    · simp only [List.mem_singleton]
      exact validatorNameMsg_ne_transparencyMsg rel
  have hTok : tokenNameMsg rel ∈
      namingErrors rel ext ++ (dimensionErrors rel dims ++ transErrs) ↔
      tokenNameMsg rel ∈ namingErrors rel ext := by
    simp [List.mem_append, hTokDim, hTokTr]
  have hVal : validatorNameMsg rel ∈
      namingErrors rel ext ++ (dimensionErrors rel dims ++ transErrs) ↔
      validatorNameMsg rel ∈ namingErrors rel ext := by
    simp [List.mem_append, hValDim, hValTr]
  refine ⟨fun hc => ?_, fun hc hv => ?_, fun hc hv => ?_⟩
  · rw [hTok, tokenMsg_mem_namingErrors]
    simp [hc]
  · rw [hVal, validatorMsg_mem_namingErrors]
    simp [hc, hv]
  · constructor
    · rw [hTok, tokenMsg_mem_namingErrors]
      simp [hc]
    · rw [hVal, validatorMsg_mem_namingErrors]
      simp [hc, hv]

/-- Witness for C5 at a validly named token image: no naming error. -/
theorem naming_error_iff_witness :
    tokenRelPath ++ tokenMsgStr ∈ [dimensionMsg tokenRelPath (some ⟨1023, 1024⟩)] ↔
      tokenRegexTest (replaceFirst tokensSlashStr (replaceFirst jpgExtStr tokenRelPath)) =
        false :=
  (naming_error_iff tokenRelPath jpgExtStr pngBuf1023
    [dimensionMsg tokenRelPath (some ⟨1023, 1024⟩)] (by decide)).1 (by decide)

/-- Claim C6: for every `.png` file whose dimensions were read as `w × h` and
whose four corner reads are in range, the validator reads the 32-bit big-endian
words at absolute offsets `0`, `w - 1`, `(w * (h - 1)) mod bufferLength` and
`min (w * h - 1) (bufferLength - 4)`, and emits the transparency error if and
only if at least one of the four words is zero. -/
theorem transparency_error_iff (rel : List Char) (buffer : List Byte) (w h : Nat)
    (errs : List (List Char)) (p0 p1 p2 p3 : Nat)
    (hdims : getImageDimensions buffer = ReadResult.ok (some ⟨w, h⟩))
    (h0 : readUInt32BE buffer 0 = some p0)
    (h1 : readUInt32BE buffer ((w : Int) - 1) = some p1)
    (h2 : readUInt32BE buffer
      (Int.tmod ((w : Int) * ((h : Int) - 1)) (buffer.length : Int)) = some p2)
    (h3 : readUInt32BE buffer
      (min ((w : Int) * (h : Int) - 1) ((buffer.length : Int) - 4)) = some p3)
    (hrun : checkImageFile rel pngExtStr buffer = some errs) :
    (transparencyMsg rel ∈ errs ↔ (p0 = 0 ∨ p1 = 0 ∨ p2 = 0 ∨ p3 = 0)) := by
  obtain ⟨dims', transErrs, hd, htc, herrs⟩ :=
    checkImageFile_eq_some rel pngExtStr buffer errs hrun
  obtain rfl : (some ⟨w, h⟩ : Option Dimensions) = dims' :=
    ReadResult.ok.inj (hdims.symm.trans hd)
  subst herrs
  have htrans : transErrs =
      if p0 = 0 ∨ p1 = 0 ∨ p2 = 0 ∨ p3 = 0 then [transparencyMsg rel] else [] := by
    unfold transparencyCheck at htc
    rw [if_pos rfl] at htc
    simp only [h0, h1, h2, h3] at htc
    exact (Option.some.inj htc).symm
  subst htrans
  constructor
  · intro hmem
    rcases List.mem_append.mp hmem with hna | hrest
    · rcases mem_namingErrors rel pngExtStr _ hna with hx | hx
      · exact absurd hx.symm (tokenNameMsg_ne_transparencyMsg rel)
      · exact absurd hx.symm (validatorNameMsg_ne_transparencyMsg rel)
    · rcases List.mem_append.mp hrest with hdim | htr
      · exact absurd (mem_dimensionErrors rel _ _ hdim)
          (fun hx => (dimensionMsg_ne_transparencyMsg rel _) hx.symm)
      · by_cases hz : p0 = 0 ∨ p1 = 0 ∨ p2 = 0 ∨ p3 = 0
        · exact hz
        · rw [if_neg hz] at htr
          simp at htr
  · intro hz
    refine List.mem_append.mpr (Or.inr (List.mem_append.mpr (Or.inr ?_)))
    rw [if_pos hz]
    simp

/-- PNG signature, IHDR chunk header, width 2, height 2: all four corner reads
of the transparency check are in range for the 24-byte buffer. -/
def pngBuf2 : List Byte :=
  pngSignature ++ [0, 0, 0, 13, 73, 72, 68, 82, 0, 0, 0, 2, 0, 0, 0, 2]

/-- Witness for C6 at a concrete 2×2 PNG whose four words are all nonzero. -/
theorem transparency_error_iff_witness :
    transparencyMsg ('a' :: pngExtStr) ∈
        [dimensionMsg ('a' :: pngExtStr) (some ⟨2, 2⟩)] ↔
      (2303741511 = 0 ∨ 1347307277 = 0 ∨ 1313279242 = 0 ∨ 1192036890 = 0) :=
  transparency_error_iff ('a' :: pngExtStr) pngBuf2 2 2
    [dimensionMsg ('a' :: pngExtStr) (some ⟨2, 2⟩)] 2303741511 1347307277 1313279242
    1192036890 (by decide) (by decide) (by decide) (by decide) (by decide) (by decide)

/-! Section: claims about the traversal, the cross-checker and the driver. -/

theorem seqRes_assoc (a b c : ProcResult) :
    seqRes (seqRes a b) c = seqRes a (seqRes b c) := by
  cases a <;> cases b <;> cases c <;> simp [seqRes, List.append_assoc]

theorem seqRes_ok_nil (r : ProcResult) : seqRes (ProcResult.ok []) r = r := by
  cases r <;> simp [seqRes]

theorem processTrees_append (comps : List (List Char)) (l1 l2 : List FsTree) :
    processTrees comps (l1 ++ l2) =
      seqRes (processTrees comps l1) (processTrees comps l2) := by
  induction l1 with
  | nil =>
    rw [List.nil_append]
    have h0 : processTrees comps [] = ProcResult.ok [] := by simp [processTrees]
    rw [h0, seqRes_ok_nil]
  | cons t ts ih =>
    cases t <;> simp [processTrees, ih, seqRes_assoc]

/-- Claim C7: during traversal, a file whose name is not allow-listed and whose
lowercased extension is none of `.png`/`.jpg`/`.jpeg` terminates the process
with `process.exit(1)` immediately: whatever errors the earlier entries
accumulated and whatever entries follow, the outcome is `exit1`. -/
theorem unsupported_file_exits (comps : List (List Char)) (pre post : List FsTree)
    (name : List Char) (content : List Byte) (errs : List (List Char))
    (hpre : processTrees comps pre = ProcResult.ok errs)
    (hallow : name ∉ allowNames)
    (hext : lowerChars (extname name) ≠ pngExtStr ∧
      lowerChars (extname name) ≠ jpgExtStr ∧ lowerChars (extname name) ≠ jpegExtStr) :
    processTrees comps (pre ++ FsTree.file name content :: post) = ProcResult.exit1 := by
  have hfile : processFile comps name content = ProcResult.exit1 := by
    unfold processFile
    rw [if_neg hallow]
    show (if lowerChars (extname name) = pngExtStr ∨ lowerChars (extname name) = jpgExtStr ∨
        lowerChars (extname name) = jpegExtStr then _ else ProcResult.exit1) = ProcResult.exit1
    rw [if_neg (by tauto)]
  have hbad : processTrees comps (FsTree.file name content :: post) = ProcResult.exit1 := by
    simp [processTrees, hfile, seqRes]
  rw [processTrees_append, hpre, hbad]
  rfl

/-- Name of the unsupported file used in the C7 witness. -/
def unsupportedName : List Char := "notes.txt".data

/-- Witness for C7: a `.txt` file alone in the assets tree exits immediately. -/
theorem unsupported_file_exits_witness :
    processTrees [] [FsTree.file unsupportedName []] = ProcResult.exit1 :=
  unsupported_file_exits [] [] [] unsupportedName [] [] (by simp [processTrees])
    (by decide) ⟨by decide, by decide, by decide⟩

theorem concatMap_eq_nil_of (f : α → List β) (l : List α) (h : ∀ a, f a = []) :
    concatMap f l = [] := by
  induction l with
  | nil => rfl
  | cons a as ih => simp [concatMap, h, ih]

theorem foldl_check_push (g : α → Bool) (m : α → List β) (l : List α) (acc : List β) :
    l.foldl (fun es t => if g t then es else es ++ m t) acc =
      acc ++ concatMap (fun t => if g t then [] else m t) l := by
  induction l generalizing acc with
  | nil => simp [concatMap]
  | cons a as ih =>
    simp only [List.foldl_cons, concatMap]
    cases hg : g a
    · simp only [Bool.false_eq_true, if_false]
      rw [ih, List.append_assoc]
    · simp only [if_pos rfl]
      rw [ih]
      simp

theorem foldl_files_push (g : γ → Bool) (m : γ → List β)
    (files : List (α × List γ)) (acc : List β) :
    files.foldl (fun acc f =>
        f.2.foldl (fun es t => if g t then es else es ++ m t) acc) acc =
      acc ++ concatMap (fun f => concatMap (fun t => if g t then [] else m t) f.2) files := by
  induction files generalizing acc with
  | nil => simp [concatMap]
  | cons f fs ih =>
    simp only [List.foldl_cons, concatMap]
    rw [foldl_check_push, ih, List.append_assoc]

theorem checkCategory_push (fsFiles : List (List Char)) (key : List Char)
    (files : List (List Char × List JObj)) (errors : List (List Char)) :
    checkCategory fsFiles key files errors =
      errors ++ concatMap (fun f => concatMap (elemErrorsSpec fsFiles key) f.2) files := by
  unfold checkCategory
  split
  · rename_i h
    subst h
    rw [foldl_files_push]
    have he : elemErrorsSpec fsFiles tokensStr = fun t =>
        if assetExists fsFiles (tokensBaseStr ++ t.address) then []
        else [tokenMissMsg t.address] := by
      funext e
      simp [elemErrorsSpec]
    rw [he]
  · rename_i h1
    split
    · rename_i h
      subst h
      rw [foldl_files_push]
      have he : elemErrorsSpec fsFiles validatorsStr = fun t =>
          if assetExists fsFiles (validatorsBaseStr ++ t.id) then []
          else [validatorMissMsg t.id] := by
        funext e
        simp [elemErrorsSpec, h1]
      rw [he]
    · rename_i h2
      split
      · rename_i h
        subst h
        rw [foldl_files_push]
        have he : elemErrorsSpec fsFiles ("vaults".data) = fun t =>
            if assetExists fsFiles (tokensBaseStr ++ t.stakingTokenAddress) then []
            else [vaultMissMsg t.stakingTokenAddress] := by
          funext e
          simp [elemErrorsSpec, h1, h2]
        rw [he]
      · rename_i h3
        have hnil : ∀ e, elemErrorsSpec fsFiles key e = [] := by
          intro e
          unfold elemErrorsSpec
          rw [if_neg h1, if_neg h2, if_neg h3]
        rw [concatMap_eq_nil_of _ _ (fun f => concatMap_eq_nil_of _ _ hnil)]
        simp

/-- Claim C8: the cross-checker is exactly its specification: category `tokens`
checks the `address` field against `assets/tokens`, `validators` checks `id`
against `assets/validators`, `vaults` checks `stakingTokenAddress` against
`assets/tokens`, any other category contributes nothing, and each missing file
contributes exactly one error naming its identifier. -/
theorem metadata_crosscheck_spec (fsFiles : List (List Char)) (md : Metadata) :
    validateMetadataImages fsFiles md = crossCheckSpec fsFiles md := by
  unfold validateMetadataImages crossCheckSpec
  have hf : ∀ (l : Metadata) (acc : List (List Char)),
      l.foldl (fun errors kv => checkCategory fsFiles kv.1 kv.2 errors) acc =
        acc ++ concatMap (fun kv =>
          concatMap (fun f => concatMap (elemErrorsSpec fsFiles kv.1) f.2) kv.2) l := by
    intro l
    induction l with
    | nil => intro acc; simp [concatMap]
    | cons kv rest ih =>
      intro acc
      simp only [List.foldl_cons, concatMap]
      rw [checkCategory_push, ih, List.append_assoc]
  simpa using hf md []

/-- Claim C9: the exit status is decided by the asset pass alone.  When the
asset traversal completes with error list `errs`, a non-empty `errs` exits with
status 1 before the cross-checker runs, and an empty `errs` exits with status 0
whatever warnings the metadata cross-checker accumulates. -/
theorem metadata_never_changes_exit (root : List FsTree) (fsFiles : List (List Char))
    (md : Metadata) (errs : List (List Char))
    (hrun : processTrees [] root = ProcResult.ok errs) :
    (errs ≠ [] → runScript root fsFiles md = some (1, [])) ∧
    (errs = [] → runScript root fsFiles md = some (0, validateMetadataImages fsFiles md)) := by
  have hva : validateAssetsImages root =
      (if 0 < errs.length then ProcResult.exit1 else ProcResult.ok errs) := by
    unfold validateAssetsImages
    rw [hrun]
  constructor
  · intro hne
    unfold runScript
    rw [hva, if_pos (List.length_pos.mpr hne)]
  · intro he
    subst he
    unfold runScript
    rw [hva, if_neg (by simp)]

/-- Witness for C9: an empty assets tree exits 0 and runs the cross-checker. -/
theorem metadata_never_changes_exit_witness :
    runScript [] [] [] = some (0, validateMetadataImages [] []) :=
  (metadata_never_changes_exit [] [] [] [] (by simp [processTrees])).2 rfl

/-- Name of the PNG file used for claim C10. -/
def hugePngName : List Char := "a.png".data

/-- PNG signature, IHDR chunk header, width 4096, height 4096 — a well-signed
24-byte PNG whose declared width sends the `width - 1` transparency read far
past the end of the buffer. -/
def hugePngBuf : List Byte :=
  pngSignature ++ [0, 0, 0, 13, 73, 72, 68, 82, 0, 0, 16, 0, 0, 0, 16, 0]

/-- Claim C10: the buffer passes the PNG signature check and its dimensions are
read (4096×4096), yet the validator does not accumulate an error for it: the
transparency read at offset `width - 1 = 4095` exceeds `bufferLength - 4 = 20`,
the `readUInt32BE` call throws, and the whole run faults. -/
theorem transparency_read_out_of_bounds :
    getImageDimensions hugePngBuf = ReadResult.ok (some ⟨4096, 4096⟩) ∧
    validateAssetsImages [FsTree.file hugePngName hugePngBuf] = ProcResult.fault := by
  refine ⟨by decide, ?_⟩
  have hf : processFile [] hugePngName hugePngBuf = ProcResult.fault := by decide
  have h1 : processTrees [] [FsTree.file hugePngName hugePngBuf] = ProcResult.fault := by
    simp [processTrees, hf, seqRes]
  unfold validateAssetsImages
  rw [h1]
